import Mathlib

/-!
Verification of the analytics derivation pipeline and the batch-CSV
merge/export pipeline of the tweet-sentiment dashboard
(`src/frontend/src/App.tsx`).

The embedding is shallow: every JavaScript value the claims mention is
modelled by a Lean value (server counts as `Int`, numeric results of
divisions as `ℚ`, strings as Lean `String`, insertion-ordered `Map`s as
association lists, JS objects as key/value lists with JS property-write
semantics).  `Array.prototype.sort` is modelled by a comparison sort
(`List.insertionSort`), which returns a list sorted by the comparator and
a permutation of the input, exactly the guarantee the ECMAScript
specification gives for `sort`.
-/

/-! ## Data model (§3 of the spec, shapes from `api.ts`) -/

/-- Row of `explore.distribution`: `{sentiment, count}`. -/
structure DistEntry where
  sentiment : String
  count : Int
deriving DecidableEq, Repr

/-- Row of `explore.mix`: `{entity, sentiment, count}`. -/
structure MixEntry where
  entity : String
  sentiment : String
  count : Int
deriving DecidableEq, Repr

/-- Row of `explore.leaderboard`: `{entity, mentions}`. -/
structure LeaderboardEntry where
  entity : String
  mentions : Int
deriving DecidableEq, Repr

/-- Row of `explore.samples`: `{tweet_id, entity, sentiment, text}`
(the opaque `tweet_id` is modelled by its string form, which is what the
filter reads via `String(r.tweet_id)`). -/
structure SampleRow where
  tweet_id : String
  entity : String
  sentiment : String
  text : String
deriving DecidableEq, Repr

/-! ## String primitives

Charwise embeddings of the JavaScript string methods the pipeline uses
(`toLowerCase`, `trim`, `includes`).  They are written directly on the
character list so that they evaluate by kernel reduction. -/

/-- Embeds `String.prototype.toLowerCase` (charwise lowercasing). -/
def strLower (s : String) : String := ⟨s.data.map Char.toLower⟩

/-- Embeds `String.prototype.trim`: drop leading and trailing whitespace. -/
def strTrim (s : String) : String :=
  ⟨(((s.data.dropWhile Char.isWhitespace).reverse).dropWhile Char.isWhitespace).reverse⟩

/-- Does `l` contain `pat` as a contiguous run?  Helper for `strIncludes`. -/
def containsSub (pat : List Char) : List Char → Bool
  | [] => pat.isEmpty
  | c :: t => pat.isPrefixOf (c :: t) || containsSub pat t

/-- Embeds `String.prototype.includes`: `s` contains `pat` as a substring. -/
def strIncludes (s pat : String) : Bool := containsSub pat.data s.data

/-! ## Aggregator (App.tsx, derived analytics) -/

/-- The per-entity accumulator `{pos, neg, neu}` used while folding `mix`
(App.tsx line 248). -/
structure SentCounts where
  pos : Int
  neg : Int
  neu : Int
deriving DecidableEq, Repr

/-- One pass of the loop body at App.tsx lines 253-255: the three
independent `if` statements that assign (not add) `m.count` into the
accumulator row. -/
def applySent (c : SentCounts) (sentiment : String) (count : Int) : SentCounts :=
  let c1 := if sentiment = "Positive" then { c with pos := count } else c
  let c2 := if sentiment = "Negative" then { c1 with neg := count } else c1
  if sentiment = "Neutral" then { c2 with neu := count } else c2

/-- Replace the value stored under key `e` (first occurrence) by `f` of it;
the list is unchanged when `e` is absent.  Models mutation of the record
held in the insertion-ordered `Map`. -/
def updateAssoc (l : List (String × SentCounts)) (e : String) (f : SentCounts → SentCounts) :
    List (String × SentCounts) :=
  match l with
  | [] => []
  | (k, v) :: rest => if k = e then (k, f v) :: rest else (k, v) :: updateAssoc rest e f

/-- One iteration of the `for (const m of explore.mix)` loop (App.tsx
lines 250-256): insert a fresh `{pos: 0, neg: 0, neu: 0}` row when the
entity is new, then assign the count for `m.sentiment` into that row. -/
def insertMix (l : List (String × SentCounts)) (m : MixEntry) : List (String × SentCounts) :=
  let l1 := if l.any (fun p => p.1 = m.entity) then l else l ++ [(m.entity, ⟨0, 0, 0⟩)]
  updateAssoc l1 m.entity (fun c => applySent c m.sentiment m.count)

/-- The insertion-ordered `Map<string, {pos, neg, neu}>` built from `mix`. -/
def mixMap (mix : List MixEntry) : List (String × SentCounts) :=
  mix.foldl insertMix []

/-- Derived per-entity record (App.tsx lines 258-264): `total` is
`pos + neg + neu || 1` and the three ratios are computed over it. -/
structure EntityScore where
  entity : String
  pos : Int
  neg : Int
  neu : Int
  total : Int
  positivity : ℚ
  negativity : ℚ
  score : ℚ
deriving Repr

/-- Build the `EntityScore` for one `Map` entry (App.tsx lines 258-264). -/
def mkScore (e : String) (v : SentCounts) : EntityScore :=
  let s := v.pos + v.neg + v.neu
  let total : Int := if s = 0 then 1 else s
  { entity := e, pos := v.pos, neg := v.neg, neu := v.neu, total := total,
    positivity := (v.pos : ℚ) / (total : ℚ),
    negativity := (v.neg : ℚ) / (total : ℚ),
    score := ((v.pos - v.neg : Int) : ℚ) / (total : ℚ) }

/-- Comparator `(a, b) => b.total - a.total` (descending by `total`):
`a` may precede `b` iff `b.total ≤ a.total`. -/
def totalDescR (a b : EntityScore) : Prop := b.total ≤ a.total

instance : DecidableRel totalDescR :=
  fun a b => inferInstanceAs (Decidable (b.total ≤ a.total))

instance : IsTotal EntityScore totalDescR :=
  ⟨fun a b => le_total b.total a.total⟩

instance : IsTrans EntityScore totalDescR :=
  ⟨fun _ _ _ h1 h2 => le_trans h2 h1⟩

/-- Comparator `(a, b) => b.score - a.score` (descending by `score`). -/
def scoreDescR (a b : EntityScore) : Prop := b.score ≤ a.score

instance : DecidableRel scoreDescR :=
  fun a b => inferInstanceAs (Decidable (b.score ≤ a.score))

instance : IsTotal EntityScore scoreDescR :=
  ⟨fun a b => le_total b.score a.score⟩

instance : IsTrans EntityScore scoreDescR :=
  ⟨fun _ _ _ h1 h2 => le_trans h2 h1⟩

/-- Comparator `(a, b) => a.score - b.score` (ascending by `score`). -/
def scoreAscR (a b : EntityScore) : Prop := a.score ≤ b.score

instance : DecidableRel scoreAscR :=
  fun a b => inferInstanceAs (Decidable (a.score ≤ b.score))

instance : IsTotal EntityScore scoreAscR :=
  ⟨fun a b => le_total a.score b.score⟩

instance : IsTrans EntityScore scoreAscR :=
  ⟨fun _ _ _ h1 h2 => le_trans h1 h2⟩

/-- Definition of `entityScores` (App.tsx lines 246-268): fold `mix` into the per-entity
map, derive an `EntityScore` per entry, sort descending by `total`. -/
def entityScores (mix : List MixEntry) : List EntityScore :=
  List.insertionSort totalDescR ((mixMap mix).map (fun p => mkScore p.1 p.2))

/-- Definition of `topPositiveEntities` (App.tsx lines 270-277): first 20 of
`entityScores`, re-sorted by `score` descending, first 8 kept. -/
def topPositiveEntities (mix : List MixEntry) : List EntityScore :=
  (List.insertionSort scoreDescR ((entityScores mix).take 20)).take 8

/-- Definition of `topNegativeEntities` (App.tsx lines 278-285): first 20 of
`entityScores`, re-sorted by `score` ascending, first 8 kept. -/
def topNegativeEntities (mix : List MixEntry) : List EntityScore :=
  (List.insertionSort scoreAscR ((entityScores mix).take 20)).take 8

/-- Label/value pairs of a bar chart series. -/
structure BarSeries where
  labels : List String
  values : List Int
deriving DecidableEq, Repr

/-- Definition of `topEntitiesBar` (App.tsx lines 303-308): names and mention counts of
the first 10 leaderboard rows. -/
def topEntitiesBar (leaderboard : List LeaderboardEntry) : BarSeries :=
  { labels := (leaderboard.take 10).map (fun x => x.entity),
    values := (leaderboard.take 10).map (fun x => x.mentions) }

/-- One step of `new Set(...)` insertion: sets keep first-insertion order. -/
def insertSet (l : List String) (e : String) : List String :=
  if e ∈ l then l else l ++ [e]

/-- Embeds `Array.from(new Set(explore.mix.map(m => m.entity)))` (App.tsx
line 319): distinct entities of `mix` in first-occurrence order. -/
def mixEntities (mix : List MixEntry) : List String :=
  (mix.map (fun m => m.entity)).foldl insertSet []

/-- Value stored for `(e, s)` after the assignment loop at App.tsx
line 322 (`map.get(m.entity)![m.sentiment] = m.count`): each matching
entry overwrites the cell, starting from the 0 initialisation. -/
def mixCell (mix : List MixEntry) (e s : String) : Int :=
  mix.foldl (fun acc m => if m.entity = e ∧ m.sentiment = s then m.count else acc) 0

/-- The stacked per-entity series of `explorerMix`. -/
structure MixSeries where
  x : List String
  neg : List Int
  neu : List Int
  pos : List Int
deriving DecidableEq, Repr

/-- Definition of `explorerMix` (App.tsx lines 310-330): shared entity axis plus one
count array per sentiment class. -/
def explorerMix (mix : List MixEntry) : MixSeries :=
  let entities := mixEntities mix
  { x := entities,
    neg := entities.map (fun e => mixCell mix e "Negative"),
    neu := entities.map (fun e => mixCell mix e "Neutral"),
    pos := entities.map (fun e => mixCell mix e "Positive") }

/-- Embeds `new Map(distribution.map(d => [d.sentiment, d.count])).get(s) ?? 0`
(App.tsx lines 335-338): a `Map` built from pairs keeps the last value
written for a key, missing keys default to 0. -/
def distGet (dist : List DistEntry) (s : String) : Int :=
  ((((dist.filter (fun d => d.sentiment = s))).getLast?).map (fun d => d.count)).getD 0

/-- Definition of `sentimentIndex` (App.tsx lines 333-341): `(pos - neg) / (neg+neu+pos || 1)`. -/
def sentimentIndex (dist : List DistEntry) : ℚ :=
  let neg := distGet dist "Negative"
  let neu := distGet dist "Neutral"
  let pos := distGet dist "Positive"
  let denom : Int := if neg + neu + pos = 0 then 1 else neg + neu + pos
  ((pos - neg : Int) : ℚ) / (denom : ℚ)

/-! ## RowFilter (App.tsx lines 353-374) -/

/-- The per-row match of `filteredSampleRows`: the lowercased query is
searched in the lowercased `text`, `entity`, `sentiment` and `tweet_id`. -/
def sampleMatches (q : String) (r : SampleRow) : Bool :=
  strIncludes (strLower r.text) q || strIncludes (strLower r.entity) q ||
    strIncludes (strLower r.sentiment) q || strIncludes (strLower r.tweet_id) q

/-- Definition of `filteredSampleRows` (App.tsx lines 353-365). -/
def filteredSampleRows (search : String) (rows : List SampleRow) : List SampleRow :=
  if rows.isEmpty then rows
  else if strLower (strTrim search) = "" then rows
  else rows.filter (sampleMatches (strLower (strTrim search)))

/-- Definition of `filteredLeaderboardRows` (App.tsx lines 367-374): same shape, but
only the `entity` field is matched. -/
def filteredLeaderboardRows (search : String) (rows : List LeaderboardEntry) :
    List LeaderboardEntry :=
  if rows.isEmpty then rows
  else if strLower (strTrim search) = "" then rows
  else rows.filter (fun r => strIncludes (strLower r.entity) (strLower (strTrim search)))

/-! ## BatchMerger and CsvExporter (App.tsx lines 195-233)

A parsed CSV row is a JS object: a key/value list with unique keys.  The
merged rows additionally hold the numeric synthetic `id` and, when the
label array is too short, JS `undefined`. -/

/-- A JS value stored in a merged batch row. -/
inductive FieldVal where
  | str : String → FieldVal
  | num : Int → FieldVal
  | undef : FieldVal
deriving DecidableEq, Repr

/-- JS property write `o[k] = v`: update in place when the key exists,
append otherwise. -/
def objSet : List (String × FieldVal) → String → FieldVal → List (String × FieldVal)
  | [], k, v => [(k, v)]
  | p :: rest, k, v => if p.1 = k then (k, v) :: rest else p :: objSet rest k v

/-- JS property read on a merged row (first matching key). -/
def getF : List (String × FieldVal) → String → Option FieldVal
  | [], _ => none
  | p :: rest, k => if p.1 = k then some p.2 else getF rest k

/-- JS property read on a parsed CSV row (first matching key). -/
def getField : List (String × String) → String → Option String
  | [], _ => none
  | p :: rest, k => if p.1 = k then some p.2 else getField rest k

/-- The filter `(r) => r && r.text` (App.tsx line 204): a string field is
truthy exactly when it is present and non-empty. -/
def hasText (r : List (String × String)) : Bool :=
  match getField r "text" with
  | some s => s ≠ ""
  | none => false

/-- The object literal `{id: i + 1, ...row, predicted_sentiment: v}`
(App.tsx lines 210-214): properties are written left to right, so the
spread of `row` may overwrite `id`, and `predicted_sentiment` is written
last. -/
def mergeRow (row : List (String × String)) (i : Nat) (v : FieldVal) :
    List (String × FieldVal) :=
  objSet (row.foldl (fun acc p => objSet acc p.1 (FieldVal.str p.2))
    [("id", FieldVal.num (i + 1))]) "predicted_sentiment" v

/-- Embeds `sentiments[i]` with JS out-of-range semantics. -/
def jsAt (labels : List String) (i : Nat) : FieldVal :=
  match labels[i]? with
  | some l => FieldVal.str l
  | none => FieldVal.undef

/-- The merge in `onBatchFile` (App.tsx lines 204-214): drop rows without
a truthy `text`, then zip the survivors with the label array by position. -/
def batchMerge (rows : List (List (String × String))) (labels : List String) :
    List (List (String × FieldVal)) :=
  ((rows.filter hasText).enum).map (fun p => mergeRow p.2 p.1 (jsAt labels p.1))

/-- The rest-destructuring `({id, ...rest}) => rest`: every field except
`id` survives, in order. -/
def stripId : List (String × FieldVal) → List (String × FieldVal)
  | [] => []
  | p :: rest => if p.1 = "id" then stripId rest else p :: stripId rest

/-- Row lists handed to `Papa.unparse` by both `downloadCSV` (App.tsx
line 225) and `downloadFilteredSamplesCsv` (App.tsx lines 182-184). -/
def exportRows (rows : List (List (String × FieldVal))) : List (List (String × FieldVal)) :=
  rows.map stripId

/-- Proof-side read of the association list modelling the `Map` (first
matching key; the construction keeps keys unique). -/
def lookupA : List (String × SentCounts) → String → Option SentCounts
  | [], _ => none
  | p :: rest, e => if p.1 = e then some p.2 else lookupA rest e

/-! ## Specification-side descriptions used in the claim statements -/

/-- Count of the (at most one) `mix` entry for `(e, s)`, 0 when absent:
the spec reading of the sparse entity×sentiment matrix. -/
def specCount (mix : List MixEntry) (e s : String) : Int :=
  ((((mix.filter (fun m => m.entity = e ∧ m.sentiment = s))).map
    (fun m => m.count)).head?).getD 0

/-- Count of the last `mix` entry for `(e, s)` in input order, 0 when
absent. -/
def lastSpec (mix : List MixEntry) (e s : String) : Int :=
  ((((mix.filter (fun m => m.entity = e ∧ m.sentiment = s))).map
    (fun m => m.count)).getLast?).getD 0

/-! ## Concrete fixtures for witnesses and counterexamples -/

/-- A one-entity mix used by several witnesses. -/
def mixW : List MixEntry := [⟨"A", "Positive", 5⟩]

/-- A mix with a repeated `(entity, sentiment)` pair. -/
def mixDup : List MixEntry := [⟨"A", "Positive", 3⟩, ⟨"A", "Positive", 7⟩]

/-- The sentiment-index scenario from §8 of the spec. -/
def distW : List DistEntry :=
  [⟨"Positive", 60⟩, ⟨"Negative", 20⟩, ⟨"Neutral", 20⟩]

/-- An 11-row leaderboard whose largest `mentions` value comes last. -/
def lbW : List LeaderboardEntry :=
  [⟨"a", 5⟩, ⟨"b", 5⟩, ⟨"c", 5⟩, ⟨"d", 5⟩, ⟨"e", 5⟩, ⟨"f", 5⟩, ⟨"g", 5⟩,
   ⟨"h", 5⟩, ⟨"i", 5⟩, ⟨"j", 5⟩, ⟨"k", 100⟩]

/-- A sorted three-row leaderboard. -/
def lbSorted : List LeaderboardEntry := [⟨"x", 9⟩, ⟨"y", 4⟩, ⟨"z", 1⟩]

/-- A sample row used by the RowFilter witness. -/
def rowW : SampleRow := ⟨"88", "Borderlands", "Positive", "I LOVE this game"⟩

/-- An uploaded CSV row that carries its own `id` column. -/
def csvRowId : List (String × String) := [("id", "7"), ("text", "hi")]

/-- An uploaded CSV row without an `id` column. -/
def csvRowPlain : List (String × String) := [("text", "meh"), ("entity", "B")]

/-! ## Helper lemmas: last-write-wins folds -/

/-- Taking `getD` after consing: the head only matters when the tail has no last. -/
theorem getLast?_cons_getD {α : Type} (a d : α) (l : List α) :
    ((a :: l).getLast?).getD d = (l.getLast?).getD a := by
  cases l with
  | nil => rfl
  | cons b t =>
    rw [List.getLast?_cons_cons]
    obtain ⟨x, hx⟩ := Option.isSome_iff_exists.mp
      (List.getLast?_isSome.mpr (List.cons_ne_nil b t))
    rw [hx]
    rfl

/-- A fold that overwrites its accumulator whenever `p` holds computes the
image of the last matching element (or the start value). -/
theorem foldl_overwrite {α β : Type} (p : α → Prop) [DecidablePred p] (f : α → β) :
    ∀ (l : List α) (d : β),
      l.foldl (fun acc m => if p m then f m else acc) d
        = ((((l.filter (fun m => p m))).map f).getLast?).getD d := by
  intro l
  induction l with
  | nil => intro d; rfl
  | cons m t ih =>
    intro d
    by_cases h : p m
    · simp only [List.foldl_cons, if_pos h, List.filter_cons, decide_eq_true_eq, h,
        ite_true, List.map_cons]
      rw [ih (f m), getLast?_cons_getD]
    · simp only [List.foldl_cons, if_neg h, List.filter_cons, decide_eq_true_eq, h,
        ite_false]
      exact ih d

/-- Projection of one `applySent` step onto `pos`. -/
theorem applySent_pos (c : SentCounts) (s : String) (cnt : Int) :
    (applySent c s cnt).pos = if s = "Positive" then cnt else c.pos := by
  by_cases h1 : s = "Positive" <;> by_cases h2 : s = "Negative" <;>
    by_cases h3 : s = "Neutral" <;> simp [applySent, h1, h2, h3]

/-- Projection of one `applySent` step onto `neg`. -/
theorem applySent_neg (c : SentCounts) (s : String) (cnt : Int) :
    (applySent c s cnt).neg = if s = "Negative" then cnt else c.neg := by
  by_cases h1 : s = "Positive" <;> by_cases h2 : s = "Negative" <;>
    by_cases h3 : s = "Neutral" <;> simp [applySent, h1, h2, h3]

/-- Projection of one `applySent` step onto `neu`. -/
theorem applySent_neu (c : SentCounts) (s : String) (cnt : Int) :
    (applySent c s cnt).neu = if s = "Neutral" then cnt else c.neu := by
  by_cases h1 : s = "Positive" <;> by_cases h2 : s = "Negative" <;>
    by_cases h3 : s = "Neutral" <;> simp [applySent, h1, h2, h3]

/-- Folding `applySent` and projecting onto `pos` is an overwrite fold. -/
theorem foldl_applySent_pos :
    ∀ (l : List MixEntry) (c : SentCounts),
      (l.foldl (fun acc m => applySent acc m.sentiment m.count) c).pos
        = l.foldl (fun acc m => if m.sentiment = "Positive" then m.count else acc) c.pos := by
  intro l
  induction l with
  | nil => intro c; rfl
  | cons m t ih =>
    intro c
    simp only [List.foldl_cons]
    rw [ih, applySent_pos]

/-- Folding `applySent` and projecting onto `neg` is an overwrite fold. -/
theorem foldl_applySent_neg :
    ∀ (l : List MixEntry) (c : SentCounts),
      (l.foldl (fun acc m => applySent acc m.sentiment m.count) c).neg
        = l.foldl (fun acc m => if m.sentiment = "Negative" then m.count else acc) c.neg := by
  intro l
  induction l with
  | nil => intro c; rfl
  | cons m t ih =>
    intro c
    simp only [List.foldl_cons]
    rw [ih, applySent_neg]

/-- Folding `applySent` and projecting onto `neu` is an overwrite fold. -/
theorem foldl_applySent_neu :
    ∀ (l : List MixEntry) (c : SentCounts),
      (l.foldl (fun acc m => applySent acc m.sentiment m.count) c).neu
        = l.foldl (fun acc m => if m.sentiment = "Neutral" then m.count else acc) c.neu := by
  intro l
  induction l with
  | nil => intro c; rfl
  | cons m t ih =>
    intro c
    simp only [List.foldl_cons]
    rw [ih, applySent_neu]

/-- Filtering first by entity and then by sentiment filters by the pair. -/
theorem filter_ent_sent (mix : List MixEntry) (e s : String) :
    (mix.filter (fun m => m.entity = e)).filter (fun m => m.sentiment = s)
      = mix.filter (fun m => m.entity = e ∧ m.sentiment = s) := by
  induction mix with
  | nil => rfl
  | cons m t ih =>
    by_cases h1 : m.entity = e <;> by_cases h2 : m.sentiment = s <;>
      simp [List.filter_cons, h1, h2, ih]

/-! ## Helper lemmas: the per-entity map -/

/-- The update `updateAssoc` leaves the key list unchanged. -/
theorem keys_updateAssoc (l : List (String × SentCounts)) (e : String)
    (f : SentCounts → SentCounts) :
    (updateAssoc l e f).map Prod.fst = l.map Prod.fst := by
  induction l with
  | nil => rfl
  | cons p t ih =>
    obtain ⟨k, v⟩ := p
    simp only [updateAssoc]
    by_cases h : k = e
    · simp [h]
    · simp [h, ih]

/-- Reading `updateAssoc` through `lookupA`. -/
theorem lookupA_updateAssoc (l : List (String × SentCounts)) (e : String)
    (f : SentCounts → SentCounts) (e' : String) :
    lookupA (updateAssoc l e f) e' =
      if e' = e then (lookupA l e).map f else lookupA l e' := by
  induction l with
  | nil => by_cases h : e' = e <;> simp [updateAssoc, lookupA, h]
  | cons p t ih =>
    obtain ⟨k, v⟩ := p
    by_cases hk : k = e
    · subst hk
      simp only [updateAssoc, if_pos rfl, lookupA, if_pos rfl]
      by_cases h : e' = k
      · rw [if_pos h.symm, if_pos h]
        rfl
      · have h' : ¬k = e' := fun hh => h hh.symm
        rw [if_neg h', if_neg h, if_neg h']
    · simp only [updateAssoc, if_neg hk, lookupA, if_neg hk]
      by_cases h : k = e'
      · have he' : ¬e' = e := fun hh => hk (h.trans hh)
        rw [if_pos h, if_neg he', if_pos h]
      · rw [if_neg h, ih]
        by_cases h2 : e' = e
        · rw [if_pos h2, if_pos h2]
        · rw [if_neg h2, if_neg h2, if_neg h]

/-- A successful `any` on a key gives a successful `lookupA`. -/
theorem lookupA_isSome_of_any {l : List (String × SentCounts)} {k : String}
    (h : l.any (fun p => p.1 = k) = true) : ∃ v, lookupA l k = some v := by
  induction l with
  | nil => simp at h
  | cons p t ih =>
    simp only [List.any_cons, Bool.or_eq_true, decide_eq_true_eq] at h
    by_cases hp : p.1 = k
    · exact ⟨p.2, by simp [lookupA, hp]⟩
    · obtain ⟨v, hv⟩ := ih (by simpa [hp] using h)
      exact ⟨v, by simp [lookupA, hp, hv]⟩

/-- A failing `any` on a key gives a failing `lookupA`. -/
theorem lookupA_eq_none_of_not_any {l : List (String × SentCounts)} {k : String}
    (h : l.any (fun p => p.1 = k) = false) : lookupA l k = none := by
  induction l with
  | nil => rfl
  | cons p t ih =>
    simp only [List.any_cons, Bool.or_eq_false_iff, decide_eq_false_iff_not] at h
    simp [lookupA, h.1, ih (by simpa using h.2)]

/-- Reading `lookupA` over an append looks left first. -/
theorem lookupA_append (l1 l2 : List (String × SentCounts)) (k : String) :
    lookupA (l1 ++ l2) k = (lookupA l1 k).or (lookupA l2 k) := by
  induction l1 with
  | nil => simp [lookupA, Option.none_or]
  | cons p t ih =>
    simp only [List.cons_append, lookupA]
    by_cases hp : p.1 = k
    · simp [hp]
    · simp [hp, ih]

/-- Reading one loop iteration through `lookupA`. -/
theorem lookupA_insertMix (l : List (String × SentCounts)) (m : MixEntry) (e : String) :
    lookupA (insertMix l m) e =
      if e = m.entity
      then some (applySent ((lookupA l m.entity).getD ⟨0, 0, 0⟩) m.sentiment m.count)
      else lookupA l e := by
  unfold insertMix
  by_cases hmem : l.any (fun p => p.1 = m.entity) = true
  · rw [if_pos hmem, lookupA_updateAssoc]
    by_cases he : e = m.entity
    · rw [if_pos he, if_pos he]
      obtain ⟨v, hv⟩ := lookupA_isSome_of_any hmem
      rw [hv]
      rfl
    · rw [if_neg he, if_neg he]
  · rw [if_neg hmem, lookupA_updateAssoc]
    have hnone : lookupA l m.entity = none :=
      lookupA_eq_none_of_not_any (Bool.eq_false_iff.mpr hmem)
    by_cases he : e = m.entity
    · rw [if_pos he, if_pos he, lookupA_append, hnone, Option.none_or]
      simp [lookupA]
    · have hme : ¬m.entity = e := fun hh => he hh.symm
      rw [if_neg he, if_neg he, lookupA_append]
      simp [lookupA, hme, Option.or_none]

/-- The value held for `e` after the whole loop is the overwrite fold of
the entries whose entity is `e` (starting from the value held before). -/
theorem lookupA_foldl_insertMix (ms : List MixEntry) :
    ∀ (acc : List (String × SentCounts)) (e : String),
      (lookupA (ms.foldl insertMix acc) e).getD ⟨0, 0, 0⟩
        = (ms.filter (fun m => m.entity = e)).foldl
            (fun c m => applySent c m.sentiment m.count)
            ((lookupA acc e).getD ⟨0, 0, 0⟩) := by
  induction ms with
  | nil => intro acc e; rfl
  | cons m t ih =>
    intro acc e
    simp only [List.foldl_cons]
    rw [ih (insertMix acc m) e, lookupA_insertMix]
    by_cases he : e = m.entity
    · rw [if_pos he, List.filter_cons,
        if_pos (by simpa using he.symm)]
      simp only [List.foldl_cons, Option.getD_some]
      rw [he]
    · rw [if_neg he, List.filter_cons,
        if_neg (by simpa using fun hh : m.entity = e => he hh.symm)]

/-- Bridge between the loop's `any` test and key-list membership. -/
theorem any_key_iff (l : List (String × SentCounts)) (e : String) :
    (l.any (fun p => p.1 = e)) = true ↔ e ∈ l.map Prod.fst := by
  rw [List.any_eq_true]
  constructor
  · rintro ⟨p, hp, hpe⟩
    exact List.mem_map.mpr ⟨p, hp, by simpa using hpe⟩
  · rintro hmem
    obtain ⟨p, hp, hpe⟩ := List.mem_map.mp hmem
    exact ⟨p, hp, by simpa using hpe⟩

/-- Key list of one loop iteration. -/
theorem keys_insertMix (l : List (String × SentCounts)) (m : MixEntry) :
    (insertMix l m).map Prod.fst =
      if m.entity ∈ l.map Prod.fst then l.map Prod.fst
      else l.map Prod.fst ++ [m.entity] := by
  unfold insertMix
  by_cases hmem : m.entity ∈ l.map Prod.fst
  · rw [if_pos ((any_key_iff l m.entity).mpr hmem), keys_updateAssoc, if_pos hmem]
  · rw [if_neg (fun hh => hmem ((any_key_iff l m.entity).mp hh)),
      keys_updateAssoc, if_neg hmem]
    simp

/-- Membership in the key list of the folded map. -/
theorem mem_keys_foldl (ms : List MixEntry) :
    ∀ (acc : List (String × SentCounts)) (e : String),
      e ∈ (ms.foldl insertMix acc).map Prod.fst
        ↔ e ∈ acc.map Prod.fst ∨ e ∈ ms.map (fun m => m.entity) := by
  induction ms with
  | nil => intro acc e; simp
  | cons m t ih =>
    intro acc e
    simp only [List.foldl_cons]
    rw [ih (insertMix acc m) e, keys_insertMix]
    by_cases hmem : m.entity ∈ acc.map Prod.fst
    · rw [if_pos hmem]
      simp only [List.map_cons, List.mem_cons]
      constructor
      · rintro (h | h)
        · exact Or.inl h
        · exact Or.inr (Or.inr h)
      · rintro (h | h | h)
        · exact Or.inl h
        · exact Or.inl (h ▸ hmem)
        · exact Or.inr h
    · rw [if_neg hmem]
      simp only [List.mem_append, List.mem_singleton, List.map_cons, List.mem_cons]
      tauto

/-- The folded map has pairwise-distinct keys. -/
theorem nodup_keys_foldl (ms : List MixEntry) :
    ∀ (acc : List (String × SentCounts)),
      (acc.map Prod.fst).Nodup → ((ms.foldl insertMix acc).map Prod.fst).Nodup := by
  induction ms with
  | nil => intro acc h; exact h
  | cons m t ih =>
    intro acc h
    simp only [List.foldl_cons]
    refine ih (insertMix acc m) ?_
    rw [keys_insertMix]
    by_cases hmem : m.entity ∈ acc.map Prod.fst
    · rwa [if_pos hmem]
    · rw [if_neg hmem]
      refine List.nodup_append.mpr ⟨h, List.nodup_singleton _, ?_⟩
      intro a ha hb
      rw [List.mem_singleton] at hb
      exact hmem (hb ▸ ha)

/-- On a list with distinct keys, `lookupA` finds any member pair. -/
theorem lookupA_of_mem :
    ∀ {l : List (String × SentCounts)}, (l.map Prod.fst).Nodup →
      ∀ {k : String} {v : SentCounts}, (k, v) ∈ l → lookupA l k = some v := by
  intro l
  induction l with
  | nil => intro _ k v h; simp at h
  | cons p t ih =>
    intro hnd k v hm
    simp only [List.map_cons, List.nodup_cons] at hnd
    rcases List.mem_cons.mp hm with h | h
    · rw [← h]
      simp [lookupA]
    · have hk : ¬p.1 = k := by
        intro hh
        exact hnd.1 (hh ▸ (List.mem_map.mpr ⟨(k, v), h, rfl⟩))
      simp only [lookupA, if_neg hk]
      exact ih hnd.2 h

/-! ## Helper lemmas: the derived `EntityScore` records -/

/-- Every element of `entityScores` is the score record of its own entity,
computed by the overwrite fold over that entity's `mix` rows. -/
theorem entityScores_elt (mix : List MixEntry) {es : EntityScore}
    (h : es ∈ entityScores mix) :
    es = mkScore es.entity
      ((mix.filter (fun m => m.entity = es.entity)).foldl
        (fun c m => applySent c m.sentiment m.count) ⟨0, 0, 0⟩) := by
  have h1 : es ∈ (mixMap mix).map (fun p => mkScore p.1 p.2) :=
    (List.perm_insertionSort totalDescR _).mem_iff.mp h
  obtain ⟨p, hp, hes⟩ := List.mem_map.mp h1
  have hent : es.entity = p.1 := by rw [← hes]; rfl
  have hnd : ((mixMap mix).map Prod.fst).Nodup :=
    nodup_keys_foldl mix [] List.nodup_nil
  have hv : lookupA (List.foldl insertMix [] mix) p.1 = some p.2 :=
    lookupA_of_mem hnd hp
  have hfold := lookupA_foldl_insertMix mix [] p.1
  rw [hv] at hfold
  simp only [Option.getD_some, lookupA, Option.getD_none] at hfold
  rw [hent, ← hes, hfold]

/-- Fields `pos`, `neg`, `neu`, `total` and the three ratios of a produced score
record, in terms of the record itself. -/
theorem entityScores_fields (mix : List MixEntry) {es : EntityScore}
    (h : es ∈ entityScores mix) :
    es.pos = lastSpec mix es.entity "Positive" ∧
    es.neg = lastSpec mix es.entity "Negative" ∧
    es.neu = lastSpec mix es.entity "Neutral" ∧
    es.total = (if es.pos + es.neg + es.neu = 0 then 1 else es.pos + es.neg + es.neu) ∧
    es.positivity = (es.pos : ℚ) / (es.total : ℚ) ∧
    es.negativity = (es.neg : ℚ) / (es.total : ℚ) ∧
    es.score = ((es.pos - es.neg : Int) : ℚ) / (es.total : ℚ) := by
  have heq := entityScores_elt mix h
  set v := (mix.filter (fun m => m.entity = es.entity)).foldl
    (fun c m => applySent c m.sentiment m.count) ⟨0, 0, 0⟩ with hvdef
  have hpos : es.pos = v.pos := by rw [heq]; rfl
  have hneg : es.neg = v.neg := by rw [heq]; rfl
  have hneu : es.neu = v.neu := by rw [heq]; rfl
  have hvp : v.pos = lastSpec mix es.entity "Positive" := by
    rw [hvdef, foldl_applySent_pos]
    simp only [show (⟨0, 0, 0⟩ : SentCounts).pos = 0 from rfl]
    rw [foldl_overwrite (fun m : MixEntry => m.sentiment = "Positive")
      (fun m : MixEntry => m.count), filter_ent_sent]
    rfl
  have hvn : v.neg = lastSpec mix es.entity "Negative" := by
    rw [hvdef, foldl_applySent_neg]
    simp only [show (⟨0, 0, 0⟩ : SentCounts).neg = 0 from rfl]
    rw [foldl_overwrite (fun m : MixEntry => m.sentiment = "Negative")
      (fun m : MixEntry => m.count), filter_ent_sent]
    rfl
  have hvu : v.neu = lastSpec mix es.entity "Neutral" := by
    rw [hvdef, foldl_applySent_neu]
    simp only [show (⟨0, 0, 0⟩ : SentCounts).neu = 0 from rfl]
    rw [foldl_overwrite (fun m : MixEntry => m.sentiment = "Neutral")
      (fun m : MixEntry => m.count), filter_ent_sent]
    rfl
  refine ⟨hpos.trans hvp, hneg.trans hvn, hneu.trans hvu, ?_, ?_, ?_, ?_⟩
  · rw [hpos, hneg, hneu, heq]
    rfl
  · rw [hpos, heq]
    rfl
  · rw [hneg, heq]
    rfl
  · rw [hpos, hneg, heq]
    rfl

/-- The entities of `entityScores` are a permutation of the map's keys. -/
theorem entityScores_entities_perm (mix : List MixEntry) :
    ((entityScores mix).map (fun es => es.entity)).Perm ((mixMap mix).map Prod.fst) := by
  have h := (List.perm_insertionSort totalDescR
    ((mixMap mix).map (fun p => mkScore p.1 p.2))).map (fun es => es.entity)
  rw [List.map_map] at h
  have hcong : (mixMap mix).map ((fun es => es.entity) ∘ (fun p => mkScore p.1 p.2))
      = (mixMap mix).map Prod.fst :=
    List.map_congr_left (fun p _ => rfl)
  rw [hcong] at h
  exact h

/-- The produced entity list has no duplicates. -/
theorem entityScores_entities_nodup (mix : List MixEntry) :
    ((entityScores mix).map (fun es => es.entity)).Nodup :=
  (entityScores_entities_perm mix).nodup_iff.mpr
    (nodup_keys_foldl mix [] List.nodup_nil)

/-- An entity owns a score record exactly when it appears in `mix`. -/
theorem entityScores_entities_mem (mix : List MixEntry) (e : String) :
    (∃ es ∈ entityScores mix, es.entity = e) ↔ e ∈ mix.map (fun m => m.entity) := by
  constructor
  · rintro ⟨es, hes, rfl⟩
    have h1 : es.entity ∈ (entityScores mix).map (fun es => es.entity) :=
      List.mem_map.mpr ⟨es, hes, rfl⟩
    have h2 := (entityScores_entities_perm mix).mem_iff.mp h1
    exact ((mem_keys_foldl mix [] es.entity).mp h2).resolve_left (by simp)
  · intro hmem
    have h2 : e ∈ (mixMap mix).map Prod.fst :=
      (mem_keys_foldl mix [] e).mpr (Or.inr hmem)
    have h1 : e ∈ (entityScores mix).map (fun es => es.entity) :=
      (entityScores_entities_perm mix).mem_iff.mpr h2
    obtain ⟨es, hes, hee⟩ := List.mem_map.mp h1
    exact ⟨es, hes, hee⟩

/-- The produced list is sorted descending by `total`. -/
theorem entityScores_sorted (mix : List MixEntry) :
    (entityScores mix).Pairwise (fun a b => b.total ≤ a.total) := by
  have h := List.sorted_insertionSort totalDescR
    ((mixMap mix).map (fun p => mkScore p.1 p.2))
  exact h

/-- The value `lastSpec` only returns 0 or a count of `mix`. -/
theorem lastSpec_nonneg {mix : List MixEntry} (hnn : ∀ m ∈ mix, 0 ≤ m.count)
    (e s : String) : 0 ≤ lastSpec mix e s := by
  unfold lastSpec
  cases hl : ((mix.filter (fun m => m.entity = e ∧ m.sentiment = s)).map
      (fun m => m.count)).getLast? with
  | none => simp
  | some c =>
    have hc : c ∈ (mix.filter (fun m => m.entity = e ∧ m.sentiment = s)).map
        (fun m => m.count) := List.mem_of_mem_getLast? hl
    obtain ⟨m, hm, hmc⟩ := List.mem_map.mp hc
    simp only [Option.getD_some]
    exact hmc ▸ hnn m (List.mem_of_mem_filter hm)

/-- Under the sparse-matrix hypothesis a pair occurs at most once. -/
theorem filter_pair_subsingleton {mix : List MixEntry}
    (hpair : mix.Pairwise (fun a b => ¬(a.entity = b.entity ∧ a.sentiment = b.sentiment)))
    (e s : String) :
    (mix.filter (fun m => m.entity = e ∧ m.sentiment = s)).length ≤ 1 := by
  have hp := hpair.filter (fun m => m.entity = e ∧ m.sentiment = s)
  cases hfl : mix.filter (fun m => m.entity = e ∧ m.sentiment = s) with
  | nil => simp
  | cons a t =>
    cases t with
    | nil => simp
    | cons b t2 =>
      rw [hfl] at hp
      have hab := (List.pairwise_cons.mp hp).1 b (by simp)
      have ha : a.entity = e ∧ a.sentiment = s := by
        have := List.mem_filter.mp (hfl ▸ (by simp : a ∈ a :: b :: t2))
        simpa using this.2
      have hb : b.entity = e ∧ b.sentiment = s := by
        have := List.mem_filter.mp (hfl ▸ (by simp : b ∈ a :: b :: t2))
        simpa using this.2
      exact absurd ⟨ha.1.trans hb.1.symm, ha.2.trans hb.2.symm⟩ hab

/-- On a list of length at most one, first and last agree. -/
theorem head?_eq_getLast?_of_length_le_one {α : Type} {l : List α}
    (h : l.length ≤ 1) : l.head? = l.getLast? := by
  cases l with
  | nil => rfl
  | cons a t =>
    cases t with
    | nil => rfl
    | cons b t2 => simp at h

/-- Under the sparse-matrix hypothesis the last and the unique count agree. -/
theorem lastSpec_eq_specCount {mix : List MixEntry}
    (hpair : mix.Pairwise (fun a b => ¬(a.entity = b.entity ∧ a.sentiment = b.sentiment)))
    (e s : String) : lastSpec mix e s = specCount mix e s := by
  unfold lastSpec specCount
  rw [head?_eq_getLast?_of_length_le_one
    (by rw [List.length_map]; exact filter_pair_subsingleton hpair e s)]

/-! ## Helper lemmas: the division guard -/

/-- The `|| 1` guard yields a positive denominator for non-negative input. -/
theorem guard_pos {s : Int} (hs : 0 ≤ s) : 0 < (if s = 0 then 1 else s) := by
  by_cases h : s = 0
  · simp [h]
  · rw [if_neg h]
    omega

/-- For non-negative input the `|| 1` guard is a floor at 1. -/
theorem guard_eq_max {s : Int} (hs : 0 ≤ s) : (if s = 0 then 1 else s) = max s 1 := by
  by_cases h : s = 0
  · rw [if_pos h, h]
    rfl
  · rw [if_neg h, max_eq_left (by omega)]

/-- A quotient of integers with `-t ≤ a ≤ t` and `0 < t` lies in `[-1, 1]`. -/
theorem div_bounds {a t : Int} (ht : 0 < t) (h1 : -t ≤ a) (h2 : a ≤ t) :
    (-1 : ℚ) ≤ ((a : Int) : ℚ) / ((t : Int) : ℚ) ∧
      ((a : Int) : ℚ) / ((t : Int) : ℚ) ≤ 1 := by
  have htQ : (0 : ℚ) < ((t : Int) : ℚ) := by exact_mod_cast ht
  constructor
  · rw [le_div_iff₀ htQ]
    have : ((-t : Int) : ℚ) ≤ ((a : Int) : ℚ) := by exact_mod_cast h1
    push_cast at this ⊢
    linarith
  · rw [div_le_one htQ]
    exact_mod_cast h2

/-! ## Claim C1 -/

/-- C1: for a mix in which each `(entity, sentiment)` pair appears at most
once and all counts are non-negative, `entityScores` has exactly one entry
per distinct entity of `mix`; its `pos`/`neg`/`neu` are the counts of that
entity's `"Positive"`/`"Negative"`/`"Neutral"` rows (0 when the pair is
absent or the sentiment is not one of the three classes), `total` is
`pos + neg + neu` floored at 1, `score` is `(pos - neg) / total`, and the
list is sorted descending by `total`. -/
theorem claim_C1_entityScores (mix : List MixEntry)
    (hpair : mix.Pairwise (fun a b => ¬(a.entity = b.entity ∧ a.sentiment = b.sentiment)))
    (hnn : ∀ m ∈ mix, 0 ≤ m.count) :
    ((entityScores mix).map (fun es => es.entity)).Nodup ∧
    (∀ e : String,
      (∃ es ∈ entityScores mix, es.entity = e) ↔ e ∈ mix.map (fun m => m.entity)) ∧
    (∀ es ∈ entityScores mix,
      es.pos = specCount mix es.entity "Positive" ∧
      es.neg = specCount mix es.entity "Negative" ∧
      es.neu = specCount mix es.entity "Neutral" ∧
      es.total = max (es.pos + es.neg + es.neu) 1 ∧
      es.score = ((es.pos - es.neg : Int) : ℚ) / (es.total : ℚ)) ∧
    (entityScores mix).Pairwise (fun a b => b.total ≤ a.total) := by
  refine ⟨entityScores_entities_nodup mix, entityScores_entities_mem mix, ?_,
    entityScores_sorted mix⟩
  intro es hes
  obtain ⟨h1, h2, h3, h4, _, _, h7⟩ := entityScores_fields mix hes
  have hp : 0 ≤ es.pos := h1 ▸ lastSpec_nonneg hnn es.entity "Positive"
  have hn : 0 ≤ es.neg := h2 ▸ lastSpec_nonneg hnn es.entity "Negative"
  have hu : 0 ≤ es.neu := h3 ▸ lastSpec_nonneg hnn es.entity "Neutral"
  refine ⟨h1.trans (lastSpec_eq_specCount hpair es.entity "Positive"),
    h2.trans (lastSpec_eq_specCount hpair es.entity "Negative"),
    h3.trans (lastSpec_eq_specCount hpair es.entity "Neutral"), ?_, h7⟩
  rw [h4, guard_eq_max (by omega)]

/-- Witness for C1 at the one-row mix `mixW`. -/
theorem claim_C1_entityScores_witness :
    ((entityScores mixW).map (fun es => es.entity)).Nodup ∧
    (∀ e : String,
      (∃ es ∈ entityScores mixW, es.entity = e) ↔ e ∈ mixW.map (fun m => m.entity)) ∧
    (∀ es ∈ entityScores mixW,
      es.pos = specCount mixW es.entity "Positive" ∧
      es.neg = specCount mixW es.entity "Negative" ∧
      es.neu = specCount mixW es.entity "Neutral" ∧
      es.total = max (es.pos + es.neg + es.neu) 1 ∧
      es.score = ((es.pos - es.neg : Int) : ℚ) / (es.total : ℚ)) ∧
    (entityScores mixW).Pairwise (fun a b => b.total ≤ a.total) :=
  claim_C1_entityScores mixW (by decide) (by decide)

/-! ## Claim C2 -/

/-- C2: with non-negative counts every produced score lies in `[-1, 1]`,
the denominator `total` is strictly positive (never a division by zero),
and an entity whose rows all carry unrecognised sentiment values (so
`pos + neg + neu = 0`) gets score 0. -/
theorem claim_C2_score_bounds (mix : List MixEntry) (hnn : ∀ m ∈ mix, 0 ≤ m.count) :
    ∀ es ∈ entityScores mix,
      0 < es.total ∧ (-1 : ℚ) ≤ es.score ∧ es.score ≤ 1 ∧
      (es.pos + es.neg + es.neu = 0 → es.score = 0) := by
  intro es hes
  obtain ⟨h1, h2, h3, h4, _, _, h7⟩ := entityScores_fields mix hes
  have hp : 0 ≤ es.pos := h1 ▸ lastSpec_nonneg hnn es.entity "Positive"
  have hn : 0 ≤ es.neg := h2 ▸ lastSpec_nonneg hnn es.entity "Negative"
  have hu : 0 ≤ es.neu := h3 ▸ lastSpec_nonneg hnn es.entity "Neutral"
  have ht : 0 < es.total := h4 ▸ guard_pos (by omega)
  have hb1 : -es.total ≤ es.pos - es.neg := by
    rw [h4]
    by_cases h : es.pos + es.neg + es.neu = 0 <;> simp [h] <;> omega
  have hb2 : es.pos - es.neg ≤ es.total := by
    rw [h4]
    by_cases h : es.pos + es.neg + es.neu = 0 <;> simp [h] <;> omega
  obtain ⟨b1, b2⟩ := div_bounds ht hb1 hb2
  refine ⟨ht, ?_, ?_, ?_⟩
  · rw [h7]
    exact b1
  · rw [h7]
    exact b2
  · intro h0
    have hp0 : es.pos = 0 := by omega
    have hn0 : es.neg = 0 := by omega
    rw [h7, hp0, hn0]
    norm_num

/-- Witness for C2: the score record produced for `mixW`. -/
theorem claim_C2_score_bounds_witness :
    0 < (mkScore "A" ⟨5, 0, 0⟩).total ∧
    (-1 : ℚ) ≤ (mkScore "A" ⟨5, 0, 0⟩).score ∧
    (mkScore "A" ⟨5, 0, 0⟩).score ≤ 1 ∧
    ((mkScore "A" ⟨5, 0, 0⟩).pos + (mkScore "A" ⟨5, 0, 0⟩).neg +
      (mkScore "A" ⟨5, 0, 0⟩).neu = 0 → (mkScore "A" ⟨5, 0, 0⟩).score = 0) := by
  have hm : mkScore "A" ⟨5, 0, 0⟩ ∈ entityScores mixW := by
    rw [show entityScores mixW = [mkScore "A" ⟨5, 0, 0⟩] from rfl]
    exact List.mem_singleton_self _
  exact claim_C2_score_bounds mixW (by decide) _ hm

/-! ## Claim C3 -/

/-- C3: both top lists only contain entries of the 20 most-discussed
prefix of `entityScores`, `topPositiveEntities` is sorted descending and
`topNegativeEntities` ascending by `score`, and both have at most 8
entries. -/
theorem claim_C3_topLists (mix : List MixEntry) :
    (∀ es ∈ topPositiveEntities mix, es ∈ (entityScores mix).take 20) ∧
    (∀ es ∈ topNegativeEntities mix, es ∈ (entityScores mix).take 20) ∧
    (topPositiveEntities mix).Pairwise (fun a b => b.score ≤ a.score) ∧
    (topNegativeEntities mix).Pairwise (fun a b => a.score ≤ b.score) ∧
    (topPositiveEntities mix).length ≤ 8 ∧
    (topNegativeEntities mix).length ≤ 8 := by
  refine ⟨?_, ?_, ?_, ?_, ?_, ?_⟩
  · intro es hes
    have h1 : es ∈ List.insertionSort scoreDescR ((entityScores mix).take 20) :=
      List.Sublist.mem hes (List.take_sublist 8 _)
    exact (List.perm_insertionSort scoreDescR _).mem_iff.mp h1
  · intro es hes
    have h1 : es ∈ List.insertionSort scoreAscR ((entityScores mix).take 20) :=
      List.Sublist.mem hes (List.take_sublist 8 _)
    exact (List.perm_insertionSort scoreAscR _).mem_iff.mp h1
  · have h := List.sorted_insertionSort scoreDescR ((entityScores mix).take 20)
    exact List.Pairwise.sublist (List.take_sublist 8 _) h
  · have h := List.sorted_insertionSort scoreAscR ((entityScores mix).take 20)
    exact List.Pairwise.sublist (List.take_sublist 8 _) h
  · unfold topPositiveEntities
    rw [List.length_take]
    exact min_le_left 8 _
  · unfold topNegativeEntities
    rw [List.length_take]
    exact min_le_left 8 _

/-- Witness for C3: the single score record of `mixW` sits in both top
lists, hence inside the 20-most-discussed prefix. -/
theorem claim_C3_topLists_witness :
    mkScore "A" ⟨5, 0, 0⟩ ∈ (entityScores mixW).take 20 := by
  have hm : mkScore "A" ⟨5, 0, 0⟩ ∈ topPositiveEntities mixW := by
    rw [show topPositiveEntities mixW = [mkScore "A" ⟨5, 0, 0⟩] from rfl]
    exact List.mem_singleton_self _
  exact (claim_C3_topLists mixW).1 _ hm

/-! ## Claim C9 -/

/-- The cell fold of `explorerMix` records the last matching count. -/
theorem mixCell_eq_lastSpec (mix : List MixEntry) (e s : String) :
    mixCell mix e s = lastSpec mix e s := by
  unfold mixCell
  rw [foldl_overwrite (fun m : MixEntry => m.entity = e ∧ m.sentiment = s)
    (fun m : MixEntry => m.count)]
  rfl

/-- C9: with repeated `(entity, sentiment)` pairs, both the `entityScores`
aggregation and the stacked mix series record the count of the last such
entry in input order (later occurrences overwrite, they are not summed).
Stated for every mix array. -/
theorem claim_C9_lastWins (mix : List MixEntry) :
    (∀ es ∈ entityScores mix,
      es.pos = lastSpec mix es.entity "Positive" ∧
      es.neg = lastSpec mix es.entity "Negative" ∧
      es.neu = lastSpec mix es.entity "Neutral") ∧
    (explorerMix mix).neg = (mixEntities mix).map (fun e => lastSpec mix e "Negative") ∧
    (explorerMix mix).neu = (mixEntities mix).map (fun e => lastSpec mix e "Neutral") ∧
    (explorerMix mix).pos = (mixEntities mix).map (fun e => lastSpec mix e "Positive") := by
  refine ⟨?_, ?_, ?_, ?_⟩
  · intro es hes
    obtain ⟨h1, h2, h3, _⟩ := entityScores_fields mix hes
    exact ⟨h1, h2, h3⟩
  · exact List.map_congr_left (fun e _ => mixCell_eq_lastSpec mix e "Negative")
  · exact List.map_congr_left (fun e _ => mixCell_eq_lastSpec mix e "Neutral")
  · exact List.map_congr_left (fun e _ => mixCell_eq_lastSpec mix e "Positive")

/-- Witness for C9 at the duplicated mix `mixDup` (counts 3 then 7 for the
same pair: the aggregation holds 7, not 10). -/
theorem claim_C9_lastWins_witness :
    (mkScore "A" ⟨7, 0, 0⟩).pos = lastSpec mixDup (mkScore "A" ⟨7, 0, 0⟩).entity "Positive" ∧
    (explorerMix mixDup).pos = (mixEntities mixDup).map (fun e => lastSpec mixDup e "Positive") := by
  constructor
  · have hm : mkScore "A" ⟨7, 0, 0⟩ ∈ entityScores mixDup := by
      rw [show entityScores mixDup = [mkScore "A" ⟨7, 0, 0⟩] from rfl]
      exact List.mem_singleton_self _
    exact ((claim_C9_lastWins mixDup).1 _ hm).1
  · exact (claim_C9_lastWins mixDup).2.2.2

/-! ## Claim C4 -/

/-- The value `distGet` only returns 0 or a count of `distribution`. -/
theorem distGet_nonneg {dist : List DistEntry} (hnn : ∀ d ∈ dist, 0 ≤ d.count)
    (s : String) : 0 ≤ distGet dist s := by
  unfold distGet
  cases hl : (dist.filter (fun d => d.sentiment = s)).getLast? with
  | none => simp [hl]
  | some d =>
    have hd : d ∈ dist.filter (fun d => d.sentiment = s) := List.mem_of_mem_getLast? hl
    simp only [hl, Option.map_some', Option.getD_some]
    exact hnn d (List.mem_of_mem_filter hd)

/-- C4: `sentimentIndex` is `(pos - neg)` over the class counts recorded in
`distribution` (each 0 when absent), the denominator is their sum floored
at 1, the value lies in `[-1, 1]`, and the §8 scenario evaluates to
`0.4 = 2/5`. -/
theorem claim_C4_sentimentIndex (dist : List DistEntry)
    (hnn : ∀ d ∈ dist, 0 ≤ d.count) :
    sentimentIndex dist =
      ((distGet dist "Positive" - distGet dist "Negative" : Int) : ℚ)
        / ((max (distGet dist "Negative" + distGet dist "Neutral" + distGet dist "Positive")
            1 : Int) : ℚ) ∧
    (-1 : ℚ) ≤ sentimentIndex dist ∧ sentimentIndex dist ≤ 1 ∧
    sentimentIndex distW = 2 / 5 := by
  have hne : 0 ≤ distGet dist "Negative" := distGet_nonneg hnn "Negative"
  have hnu : 0 ≤ distGet dist "Neutral" := distGet_nonneg hnn "Neutral"
  have hpo : 0 ≤ distGet dist "Positive" := distGet_nonneg hnn "Positive"
  set N := distGet dist "Negative" with hN
  set U := distGet dist "Neutral" with hU
  set P := distGet dist "Positive" with hP
  have hunf : sentimentIndex dist =
      ((P - N : Int) : ℚ) / ((if N + U + P = 0 then 1 else N + U + P : Int) : ℚ) := rfl
  have ht : 0 < (if N + U + P = 0 then 1 else N + U + P) := guard_pos (by omega)
  have hb1 : -(if N + U + P = 0 then 1 else N + U + P) ≤ P - N := by
    by_cases h : N + U + P = 0
    · rw [if_pos h]
      omega
    · rw [if_neg h]
      omega
  have hb2 : P - N ≤ (if N + U + P = 0 then 1 else N + U + P) := by
    by_cases h : N + U + P = 0
    · rw [if_pos h]
      omega
    · rw [if_neg h]
      omega
  refine ⟨?_, ?_, ?_, ?_⟩
  · rw [hunf, guard_eq_max (by omega)]
  · rw [hunf]
    exact (div_bounds ht hb1 hb2).1
  · rw [hunf]
    exact (div_bounds ht hb1 hb2).2
  · have hval : sentimentIndex distW = ((40 : Int) : ℚ) / ((100 : Int) : ℚ) := rfl
    rw [hval]
    norm_num

/-- Witness for C4 at the §8 scenario distribution. -/
theorem claim_C4_sentimentIndex_witness :
    sentimentIndex distW =
      ((distGet distW "Positive" - distGet distW "Negative" : Int) : ℚ)
        / ((max (distGet distW "Negative" + distGet distW "Neutral" + distGet distW "Positive")
            1 : Int) : ℚ) ∧
    (-1 : ℚ) ≤ sentimentIndex distW ∧ sentimentIndex distW ≤ 1 ∧
    sentimentIndex distW = 2 / 5 :=
  claim_C4_sentimentIndex distW (by decide)

/-! ## Claim C8 -/

/-- C8 counterexample: in the 11-row leaderboard `lbW` the row with the
strictly largest `mentions` value (`"k"`, 100 mentions) is missing from
the bar series, which keeps the first 10 rows (5 mentions each); the
series is therefore not the top-10 by mentions. -/
theorem claim_C8_counterexample :
    (⟨"k", 100⟩ : LeaderboardEntry) ∈ lbW ∧
    (∀ m ∈ lbW, m.entity ≠ "k" → m.mentions < 100) ∧
    "k" ∉ (topEntitiesBar lbW).labels ∧
    (∀ v ∈ (topEntitiesBar lbW).values, v < 100) ∧
    (topEntitiesBar lbW).labels.length = 10 := by decide

/-- C8 (amended): the bar series is the first 10 leaderboard rows; when
the leaderboard is sorted descending by `mentions` (the shape the backend
serves) these are the 10 entities with the largest mentions values — every
dropped row has at most the mentions of every kept row — and when fewer
than 10 rows exist the whole leaderboard is charted. -/
theorem claim_C8_topEntitiesBar (lb : List LeaderboardEntry)
    (hsorted : lb.Pairwise (fun a b => b.mentions ≤ a.mentions)) :
    (topEntitiesBar lb).labels = (lb.take 10).map (fun x => x.entity) ∧
    (topEntitiesBar lb).values = (lb.take 10).map (fun x => x.mentions) ∧
    (∀ m ∈ lb.drop 10, ∀ k ∈ lb.take 10, m.mentions ≤ k.mentions) ∧
    (lb.length ≤ 10 →
      (topEntitiesBar lb).labels = lb.map (fun x => x.entity) ∧
      (topEntitiesBar lb).values = lb.map (fun x => x.mentions)) := by
  refine ⟨rfl, rfl, ?_, ?_⟩
  · have h := hsorted
    rw [← List.take_append_drop 10 lb] at h
    obtain ⟨-, -, hcross⟩ := List.pairwise_append.mp h
    intro m hm k hk
    exact hcross k hk m hm
  · intro hlen
    constructor
    · show (lb.take 10).map (fun x => x.entity) = _
      rw [List.take_of_length_le hlen]
    · show (lb.take 10).map (fun x => x.mentions) = _
      rw [List.take_of_length_le hlen]

/-- Witness for C8 at the sorted three-row leaderboard `lbSorted`. -/
theorem claim_C8_topEntitiesBar_witness :
    (topEntitiesBar lbSorted).labels = (lbSorted.take 10).map (fun x => x.entity) ∧
    (topEntitiesBar lbSorted).values = (lbSorted.take 10).map (fun x => x.mentions) ∧
    (∀ m ∈ lbSorted.drop 10, ∀ k ∈ lbSorted.take 10, m.mentions ≤ k.mentions) ∧
    (lbSorted.length ≤ 10 →
      (topEntitiesBar lbSorted).labels = lbSorted.map (fun x => x.entity) ∧
      (topEntitiesBar lbSorted).values = lbSorted.map (fun x => x.mentions)) :=
  claim_C8_topEntitiesBar lbSorted (by decide)

/-! ## Claim C6 -/

/-- The helper `containsSub` decides contiguous containment. -/
theorem containsSub_iff (pat : List Char) :
    ∀ l, containsSub pat l = true ↔ pat <:+: l := by
  intro l
  induction l with
  | nil => simp [containsSub, List.isEmpty_iff, List.infix_nil]
  | cons c t ih =>
    simp only [containsSub, Bool.or_eq_true, ih, List.isPrefixOf_iff_prefix]
    exact (List.infix_cons_iff).symm

/-- The helper `strIncludes` decides the substring relation on the character lists. -/
theorem strIncludes_iff (s pat : String) :
    strIncludes s pat = true ↔ pat.data <:+: s.data :=
  containsSub_iff pat.data s.data

/-- Charwise lowercasing preserves emptiness. -/
theorem strLower_eq_empty_iff (s : String) : strLower s = "" ↔ s = "" := by
  constructor
  · intro h
    have h2 : s.data.map Char.toLower = [] := congrArg String.data h
    rw [List.map_eq_nil_iff] at h2
    exact String.ext_iff.mpr h2
  · rintro rfl
    rfl

/-- C6: both filters return subsequences of their input; a query whose
trim is empty leaves both row lists unchanged; a non-empty trimmed query
keeps exactly the rows one of whose matched fields (`text`, `entity`,
`sentiment`, `tweet_id` for samples; `entity` for the leaderboard)
contains the trimmed query as a case-insensitive substring. -/
theorem claim_C6_rowFilter (search : String) (srows : List SampleRow)
    (lrows : List LeaderboardEntry) :
    (filteredSampleRows search srows).Sublist srows ∧
    (filteredLeaderboardRows search lrows).Sublist lrows ∧
    (strTrim search = "" →
      filteredSampleRows search srows = srows ∧
      filteredLeaderboardRows search lrows = lrows) ∧
    (strTrim search ≠ "" →
      (∀ r, r ∈ filteredSampleRows search srows ↔ r ∈ srows ∧
        ((strLower (strTrim search)).data <:+: (strLower r.text).data ∨
         (strLower (strTrim search)).data <:+: (strLower r.entity).data ∨
         (strLower (strTrim search)).data <:+: (strLower r.sentiment).data ∨
         (strLower (strTrim search)).data <:+: (strLower r.tweet_id).data)) ∧
      (∀ r, r ∈ filteredLeaderboardRows search lrows ↔ r ∈ lrows ∧
        (strLower (strTrim search)).data <:+: (strLower r.entity).data)) := by
  refine ⟨?_, ?_, ?_, ?_⟩
  · unfold filteredSampleRows
    split
    · exact List.Sublist.refl _
    · split
      · exact List.Sublist.refl _
      · exact List.filter_sublist _
  · unfold filteredLeaderboardRows
    split
    · exact List.Sublist.refl _
    · split
      · exact List.Sublist.refl _
      · exact List.filter_sublist _
  · intro h
    have hq : strLower (strTrim search) = "" := by rw [h]; rfl
    constructor
    · unfold filteredSampleRows
      rw [hq]
      split
      · rfl
      · rw [if_pos rfl]
    · unfold filteredLeaderboardRows
      rw [hq]
      split
      · rfl
      · rw [if_pos rfl]
  · intro h
    have hq : ¬strLower (strTrim search) = "" :=
      fun hh => h ((strLower_eq_empty_iff (strTrim search)).mp hh)
    have hs : filteredSampleRows search srows
        = srows.filter (sampleMatches (strLower (strTrim search))) := by
      cases srows with
      | nil => rfl
      | cons a t =>
        unfold filteredSampleRows
        rw [if_neg (by simp), if_neg hq]
    have hl : filteredLeaderboardRows search lrows
        = lrows.filter (fun r => strIncludes (strLower r.entity) (strLower (strTrim search))) := by
      cases lrows with
      | nil => rfl
      | cons a t =>
        unfold filteredLeaderboardRows
        rw [if_neg (by simp), if_neg hq]
    constructor
    · intro r
      rw [hs, List.mem_filter]
      simp only [sampleMatches, Bool.or_eq_true, strIncludes_iff]
      tauto
    · intro r
      rw [hl, List.mem_filter]
      simp only [strIncludes_iff]

/-- Witness for C6: a whitespace query is the identity on `[rowW]`, and a
non-empty query matches `rowW` through its `text` field. -/
theorem claim_C6_rowFilter_witness :
    filteredSampleRows " " [rowW] = [rowW] ∧
    (rowW ∈ filteredSampleRows "LOVE " [rowW] ↔ rowW ∈ [rowW] ∧
      ((strLower (strTrim "LOVE ")).data <:+: (strLower rowW.text).data ∨
       (strLower (strTrim "LOVE ")).data <:+: (strLower rowW.entity).data ∨
       (strLower (strTrim "LOVE ")).data <:+: (strLower rowW.sentiment).data ∨
       (strLower (strTrim "LOVE ")).data <:+: (strLower rowW.tweet_id).data)) := by
  constructor
  · exact ((claim_C6_rowFilter " " [rowW] []).2.2.1 (by decide)).1
  · exact ((claim_C6_rowFilter "LOVE " [rowW] []).2.2.2 (by decide)).1 rowW

/-! ## Helper lemmas: JS object writes -/

/-- Reading a JS object after one property write. -/
theorem getF_objSet (r : List (String × FieldVal)) (k : String) (v : FieldVal)
    (k' : String) :
    getF (objSet r k v) k' = if k' = k then some v else getF r k' := by
  induction r with
  | nil =>
    simp only [objSet, getF]
    by_cases h : k = k'
    · rw [if_pos h, if_pos h.symm]
    · rw [if_neg h, if_neg (fun hh => h hh.symm)]
  | cons p rest ih =>
    simp only [objSet]
    by_cases hp : p.1 = k
    · rw [if_pos hp]
      simp only [getF]
      by_cases h : k = k'
      · rw [if_pos h, if_pos h.symm]
      · rw [if_neg h, if_neg (fun hh => h hh.symm), if_neg (hp ▸ h : ¬p.1 = k')]
    · rw [if_neg hp]
      simp only [getF]
      by_cases h : p.1 = k'
      · have hk : ¬k' = k := fun hh => hp (h.trans hh)
        rw [if_pos h, if_neg hk, if_pos h]
      · rw [if_neg h, if_neg h, ih]

/-- A key absent from a CSV row reads as `none`. -/
theorem getField_eq_none {row : List (String × String)} {k : String}
    (h : k ∉ row.map Prod.fst) : getField row k = none := by
  induction row with
  | nil => rfl
  | cons p rest ih =>
    simp only [List.map_cons, List.mem_cons] at h
    push_neg at h
    have hp : ¬p.1 = k := fun hh => h.1 hh.symm
    simp only [getField, if_neg hp]
    exact ih h.2

/-- Reading the accumulated object after spreading a whole row into it. -/
theorem getF_foldl_objSet (row : List (String × String)) :
    ∀ (acc : List (String × FieldVal)) (k : String), (row.map Prod.fst).Nodup →
      getF (row.foldl (fun acc p => objSet acc p.1 (FieldVal.str p.2)) acc) k
        = ((getField row k).map FieldVal.str).or (getF acc k) := by
  induction row with
  | nil => intro acc k _; rfl
  | cons p rest ih =>
    intro acc k hnd
    simp only [List.map_cons, List.nodup_cons] at hnd
    simp only [List.foldl_cons]
    rw [ih _ k hnd.2]
    simp only [getField]
    by_cases hp : p.1 = k
    · have habs : getField rest k = none := getField_eq_none (hp ▸ hnd.1)
      rw [if_pos hp, habs, getF_objSet, if_pos hp.symm]
      rfl
    · rw [if_neg hp, getF_objSet, if_neg (fun hh => hp hh.symm)]

/-- Reading any key of a merged row: `predicted_sentiment` wins last, the
spread row's own fields win over the synthetic `id`. -/
theorem getF_mergeRow (row : List (String × String)) (i : Nat) (v : FieldVal)
    (hnd : (row.map Prod.fst).Nodup) (k : String) :
    getF (mergeRow row i v) k =
      if k = "predicted_sentiment" then some v
      else ((getField row k).map FieldVal.str).or
        (if k = "id" then some (FieldVal.num (i + 1)) else none) := by
  unfold mergeRow
  rw [getF_objSet]
  by_cases h : k = "predicted_sentiment"
  · rw [if_pos h, if_pos h]
  · rw [if_neg h, if_neg h, getF_foldl_objSet row _ k hnd]
    simp only [getF]
    by_cases hid : k = "id"
    · rw [if_pos hid, if_pos hid.symm]
    · rw [if_neg hid, if_neg (fun hh => hid hh.symm)]

/-- Indexing the merged output: position `i` holds the merge of the `i`-th
surviving row with `labels[i]`. -/
theorem batchMerge_getElem (rows : List (List (String × String)))
    (labels : List String) (i : Nat) {row : List (String × String)}
    (h : (rows.filter hasText)[i]? = some row) :
    (batchMerge rows labels)[i]? = some (mergeRow row i (jsAt labels i)) := by
  unfold batchMerge
  rw [List.getElem?_map, List.getElem?_enum, h]
  rfl

/-- The merged output is as long as the surviving-row list. -/
theorem batchMerge_length (rows : List (List (String × String)))
    (labels : List String) :
    (batchMerge rows labels).length = (rows.filter hasText).length := by
  unfold batchMerge
  rw [List.length_map, List.enum_length]

/-- The truthiness filter drops exactly the rows with a missing or empty
`text` field. -/
theorem hasText_false_iff (r : List (String × String)) :
    hasText r = false ↔ (getField r "text" = none ∨ getField r "text" = some "") := by
  unfold hasText
  cases h : getField r "text" with
  | none => simp
  | some s =>
    by_cases hs : s = ""
    · subst hs
      simp
    · simp [hs]

/-! ## Claim C5 -/

/-- C5 counterexample: a parsed CSV row that carries its own `id` column
keeps that value in the merged output — `id` is the string `"7"` from the
upload, not the synthetic `i + 1 = 1` the claim asserts. -/
theorem claim_C5_counterexample :
    batchMerge [csvRowId] ["Positive"]
      = [[("id", FieldVal.str "7"), ("text", FieldVal.str "hi"),
          ("predicted_sentiment", FieldVal.str "Positive")]] ∧
    getF ((batchMerge [csvRowId] ["Positive"]).headD []) "id" = some (FieldVal.str "7") ∧
    getF ((batchMerge [csvRowId] ["Positive"]).headD []) "id" ≠ some (FieldVal.num 1) := by
  decide

/-- C5 (amended): rows whose `text` is missing or empty are exactly the
dropped ones, the output length equals the number of surviving rows, and —
provided no uploaded row carries its own `id` column — the `i`-th output
row is the `i`-th surviving row's fields together with
`predicted_sentiment = labels[i]` and `id = i + 1` (and nothing else). -/
theorem claim_C5_batchMerge (rows : List (List (String × String)))
    (labels : List String)
    (hnd : ∀ r ∈ rows, (r.map Prod.fst).Nodup)
    (_hlen : labels.length = (rows.filter hasText).length)
    (hid : ∀ r ∈ rows, getField r "id" = none) :
    (∀ r ∈ rows, (hasText r = false ↔
      (getField r "text" = none ∨ getField r "text" = some ""))) ∧
    (batchMerge rows labels).length = (rows.filter hasText).length ∧
    (∀ (i : Nat) row out label, (rows.filter hasText)[i]? = some row →
      (batchMerge rows labels)[i]? = some out → labels[i]? = some label →
      getF out "id" = some (FieldVal.num (i + 1)) ∧
      getF out "predicted_sentiment" = some (FieldVal.str label) ∧
      (∀ k, k ≠ "id" → k ≠ "predicted_sentiment" →
        getF out k = (getField row k).map FieldVal.str) ∧
      (∀ k, (getF out k).isSome ↔
        (k = "id" ∨ k = "predicted_sentiment" ∨ (getField row k).isSome))) := by
  refine ⟨fun r _ => hasText_false_iff r, batchMerge_length rows labels, ?_⟩
  intro i row out label hrow hout hlabel
  have hmemf : row ∈ rows.filter hasText := by
    obtain ⟨hlt, hget⟩ := List.getElem?_eq_some_iff.mp hrow
    exact hget ▸ List.getElem_mem hlt
  have hrownd : (row.map Prod.fst).Nodup := hnd row (List.mem_of_mem_filter hmemf)
  have hrowid : getField row "id" = none := hid row (List.mem_of_mem_filter hmemf)
  have hmerge := batchMerge_getElem rows labels i hrow
  have hout2 : out = mergeRow row i (jsAt labels i) :=
    Option.some.inj (hout.symm.trans hmerge)
  have hjs : jsAt labels i = FieldVal.str label := by
    unfold jsAt
    rw [hlabel]
  subst hout2
  refine ⟨?_, ?_, ?_, ?_⟩
  · rw [getF_mergeRow row i _ hrownd,
      if_neg (by decide : ¬("id" : String) = "predicted_sentiment"), hrowid]
    simp
  · rw [getF_mergeRow row i _ hrownd, if_pos rfl, hjs]
  · intro k hk1 hk2
    rw [getF_mergeRow row i _ hrownd, if_neg hk2, if_neg hk1]
    exact Option.or_none
  · intro k
    rw [getF_mergeRow row i _ hrownd]
    by_cases hk2 : k = "predicted_sentiment"
    · simp [hk2]
    · rw [if_neg hk2]
      by_cases hk1 : k = "id"
      · simp [hk1, hrowid]
      · rw [if_neg hk1]
        simp [hk1, hk2, Option.or_none]

/-- Witness for C5: merging the id-free row `csvRowPlain` with one label. -/
theorem claim_C5_batchMerge_witness :
    getF [("id", FieldVal.num 1), ("text", FieldVal.str "meh"),
      ("entity", FieldVal.str "B"), ("predicted_sentiment", FieldVal.str "Negative")] "id"
      = some (FieldVal.num 1) ∧
    getF [("id", FieldVal.num 1), ("text", FieldVal.str "meh"),
      ("entity", FieldVal.str "B"), ("predicted_sentiment", FieldVal.str "Negative")]
      "predicted_sentiment" = some (FieldVal.str "Negative") := by
  have h := (claim_C5_batchMerge [csvRowPlain] ["Negative"] (by decide) (by decide)
    (by decide)).2.2 0 csvRowPlain
    [("id", FieldVal.num 1), ("text", FieldVal.str "meh"),
      ("entity", FieldVal.str "B"), ("predicted_sentiment", FieldVal.str "Negative")]
    "Negative" (by decide) (by decide) (by decide)
  exact ⟨h.1, h.2.1⟩

/-! ## Claim C10 -/

/-- C10: fields are written in precedence order `id`, then the uploaded
row's own fields, then `predicted_sentiment`: an uploaded `id` column
overrides the synthetic `i + 1`, while `predicted_sentiment` always ends
up as `labels[i]`. -/
theorem claim_C10_precedence (rows : List (List (String × String)))
    (labels : List String) (hnd : ∀ r ∈ rows, (r.map Prod.fst).Nodup) :
    ∀ (i : Nat) row out, (rows.filter hasText)[i]? = some row →
      (batchMerge rows labels)[i]? = some out →
      (∀ v, getField row "id" = some v → getF out "id" = some (FieldVal.str v)) ∧
      (getField row "id" = none → getF out "id" = some (FieldVal.num (i + 1))) ∧
      (∀ lab, labels[i]? = some lab →
        getF out "predicted_sentiment" = some (FieldVal.str lab)) := by
  intro i row out hrow hout
  have hmemf : row ∈ rows.filter hasText := by
    obtain ⟨hlt, hget⟩ := List.getElem?_eq_some_iff.mp hrow
    exact hget ▸ List.getElem_mem hlt
  have hrownd : (row.map Prod.fst).Nodup := hnd row (List.mem_of_mem_filter hmemf)
  have hout2 : out = mergeRow row i (jsAt labels i) :=
    Option.some.inj (hout.symm.trans (batchMerge_getElem rows labels i hrow))
  subst hout2
  refine ⟨?_, ?_, ?_⟩
  · intro v hv
    rw [getF_mergeRow row i _ hrownd,
      if_neg (by decide : ¬("id" : String) = "predicted_sentiment"), hv]
    rfl
  · intro hnone
    rw [getF_mergeRow row i _ hrownd,
      if_neg (by decide : ¬("id" : String) = "predicted_sentiment"), hnone]
    simp
  · intro lab hlab
    rw [getF_mergeRow row i _ hrownd, if_pos rfl]
    unfold jsAt
    rw [hlab]

/-- Witness for C10: the uploaded row `csvRowId` keeps its own `id` value
`"7"` and still receives the predicted label. -/
theorem claim_C10_precedence_witness :
    getF [("id", FieldVal.str "7"), ("text", FieldVal.str "hi"),
      ("predicted_sentiment", FieldVal.str "Positive")] "id" = some (FieldVal.str "7") ∧
    getF [("id", FieldVal.str "7"), ("text", FieldVal.str "hi"),
      ("predicted_sentiment", FieldVal.str "Positive")] "predicted_sentiment"
      = some (FieldVal.str "Positive") := by
  have h := claim_C10_precedence [csvRowId] ["Positive"] (by decide) 0 csvRowId
    [("id", FieldVal.str "7"), ("text", FieldVal.str "hi"),
      ("predicted_sentiment", FieldVal.str "Positive")] (by decide) (by decide)
  exact ⟨h.1 "7" (by decide), h.2.2 "Positive" (by decide)⟩

/-! ## Claim C7 -/

/-- Stripping is a sublist: the surviving fields keep their order. -/
theorem stripId_sublist : ∀ r : List (String × FieldVal), (stripId r).Sublist r := by
  intro r
  induction r with
  | nil => exact List.Sublist.refl _
  | cons p rest ih =>
    simp only [stripId]
    by_cases hp : p.1 = "id"
    · rw [if_pos hp]
      exact ih.cons p
    · rw [if_neg hp]
      exact ih.cons₂ p

/-- The stripped row no longer answers for `id`. -/
theorem getF_stripId_id (r : List (String × FieldVal)) : getF (stripId r) "id" = none := by
  induction r with
  | nil => rfl
  | cons p rest ih =>
    simp only [stripId]
    by_cases hp : p.1 = "id"
    · rw [if_pos hp]
      exact ih
    · rw [if_neg hp]
      simp only [getF, if_neg hp]
      exact ih

/-- The stripped row answers for every other key as before. -/
theorem getF_stripId_ne (r : List (String × FieldVal)) (k : String) (h : ¬k = "id") :
    getF (stripId r) k = getF r k := by
  induction r with
  | nil => rfl
  | cons p rest ih =>
    simp only [stripId]
    by_cases hp : p.1 = "id"
    · have hpk : ¬p.1 = k := fun hh => h (hh.symm.trans hp)
      rw [if_pos hp]
      simp only [getF, if_neg hpk]
      exact ih
    · rw [if_neg hp]
      simp only [getF]
      by_cases hk : p.1 = k
      · rw [if_pos hk, if_pos hk]
      · rw [if_neg hk, if_neg hk]
        exact ih

/-- C7: every row handed to the CSV serializer by the two download paths
is the corresponding input row with the `id` field removed: it is a
sublist of the input row, reads `none` for `id`, and reads every other
key exactly as the input row does. -/
theorem claim_C7_export (rows : List (List (String × FieldVal))) :
    (exportRows rows).length = rows.length ∧
    (∀ (i : Nat) out, (exportRows rows)[i]? = some out →
      ∃ r, rows[i]? = some r ∧ out.Sublist r ∧ getF out "id" = none ∧
        (∀ k, k ≠ "id" → getF out k = getF r k)) := by
  refine ⟨List.length_map rows stripId, ?_⟩
  intro i out hout
  unfold exportRows at hout
  rw [List.getElem?_map] at hout
  cases hr : rows[i]? with
  | none =>
    rw [hr] at hout
    simp at hout
  | some r =>
    rw [hr] at hout
    simp only [Option.map_some'] at hout
    obtain rfl : out = stripId r := (Option.some.inj hout).symm
    exact ⟨r, rfl, stripId_sublist r, getF_stripId_id r,
      fun k hk => getF_stripId_ne r k hk⟩

/-- Witness for C7: exporting one merged row drops exactly its `id`. -/
theorem claim_C7_export_witness :
    (exportRows [[("id", FieldVal.num 1), ("text", FieldVal.str "x")]]).length = 1 ∧
    ∃ r, [[("id", FieldVal.num 1), ("text", FieldVal.str "x")]][0]? = some r ∧
      List.Sublist [("text", FieldVal.str "x")] r ∧
      getF [("text", FieldVal.str "x")] "id" = none ∧
      (∀ k, k ≠ "id" →
        getF [("text", FieldVal.str "x")] k = getF r k) := by
  have h := claim_C7_export [[("id", FieldVal.num 1), ("text", FieldVal.str "x")]]
  exact ⟨h.1, h.2 0 [("text", FieldVal.str "x")] (by decide)⟩
